import Mathlib

/-!
Verification of the linear-http dispatch engine (a small Fastify-style
Node.js web framework).  The JavaScript source is shallowly embedded:

* JavaScript runtime values that flow through the engine (bodies, schemas,
  validation errors, payloads) are modelled by the inductive type `JsVal`,
  together with the JS truthiness test and string conversion used by the code.
* The radix router (classes `Node` and `Router`) becomes the inductive
  `Trie` with `insertSegs`/`lookupSegs` mirroring `Router.insert` and
  `Router.lookup` segment by segment.
* The scope tree (`class Linear`, its constructor, `decorate`, `use`,
  `addHook`, `setValidatorCompiler`, `register`) becomes a command
  interpreter over a `World` of `ScopeData` records.
* The per-request machinery (`createContext`, `ctx.send`, `Linear.run`,
  the lifecycle inside `Linear.listen`, the watchdog callback) becomes pure
  state-passing functions over `Ctx`, instrumented with an event trace so
  that statements such as "hook X never runs" are expressible.

JavaScript mutation is rendered as explicit state passing; async/await
inside one request is sequential in the source and is modelled
synchronously.  Handler, middleware and hook functions are modelled as
arbitrary functions `Ctx → Ctx × Option String` (the `Option String` is a
thrown error message).
-/

/-! ## JavaScript values -/

/-- A JavaScript runtime value, as far as the engine inspects one:
null, undefined, strings, (integer) numbers, booleans, plain objects
(ordered own enumerable string-keyed fields) and arrays.
Floating point NaN and non-integral numbers are not exercised by the code
under analysis and are not modelled. -/
inductive JsVal : Type where
  | vNull : JsVal
  | vUndefined : JsVal
  | vStr (s : String) : JsVal
  | vNum (n : Int) : JsVal
  | vBool (b : Bool) : JsVal
  | vObj (fields : List (String × JsVal)) : JsVal
  | vArr (elems : List JsVal) : JsVal

/-- v === null, the strict comparison the engine performs on ctx.body. -/
def isNullB : JsVal → Bool
  | .vNull => true
  | _ => false

/-- v === undefined, the strict comparison in the default validator. -/
def isUndefB : JsVal → Bool
  | .vUndefined => true
  | _ => false

/-- JS truthiness: null, undefined, false, 0 and the empty string are falsy;
objects and arrays (even empty ones) are truthy. -/
def truthy : JsVal → Bool
  | .vNull => false
  | .vUndefined => false
  | .vBool b => b
  | .vNum n => decide (n ≠ 0)
  | .vStr s => decide (s ≠ "")
  | .vObj _ => true
  | .vArr _ => true

/-- JS String(v) conversion for the values the engine stringifies.
(String(array) joins the elements with commas in JS; the engine never
stringifies an array, so vArr is given a fixed placeholder result.) -/
def jsToString : JsVal → String
  | .vNull => "null"
  | .vUndefined => "undefined"
  | .vBool b => if b then "true" else "false"
  | .vNum n => toString n
  | .vStr s => s
  | .vObj _ => "[object Object]"
  | .vArr _ => ""

/-- typeof v === "object" (true for objects, arrays and null). -/
def jsTypeofIsObject : JsVal → Bool
  | .vObj _ => true
  | .vArr _ => true
  | .vNull => true
  | _ => false

/-- typeof v === "object" && v !== null, the serialization test in ctx.send. -/
def isObjectNonNull : JsVal → Bool
  | .vObj _ => true
  | .vArr _ => true
  | _ => false

/-! Association-list primitives shared by the embedding: JS object field
update (assignment overwrites an existing key, otherwise appends in
insertion order) and field read. -/

/-- Read the first binding of key `k` (JS own-property read). -/
def afind {β : Type} : List (String × β) → String → Option β
  | [], _ => none
  | (k', v') :: rest, k => if k' = k then some v' else afind rest k

/-- Write key `k` (JS property assignment: overwrite in place or append). -/
def aset {β : Type} : List (String × β) → String → β → List (String × β)
  | [], k, v => [(k, v)]
  | (k', v') :: rest, k, v =>
      if k' = k then (k, v) :: rest else (k', v') :: aset rest k v

/-- JS property read `v[k]` as the engine uses it: a present own field of an
object (which may itself hold undefined), otherwise undefined.  Property
reads the engine performs on primitives all yield undefined. -/
def getField (v : JsVal) (k : String) : JsVal :=
  match v with
  | .vObj fs => match afind fs k with
    | some x => x
    | none => .vUndefined
  | _ => .vUndefined

/-- String escaping inside JSON.stringify, modelled for the characters the
engine can produce in practice (quote and backslash). -/
def jsonEscape (s : String) : String :=
  String.join (s.toList.map fun c =>
    if c = '"' then "\\\"" else if c = '\\' then "\\\\" else String.singleton c)

/-- JSON.stringify for the payload serialization in ctx.send.
Undefined-valued fields are dropped from objects and undefined array
elements serialize as null, exactly as JSON.stringify does. -/
def jsonStringify : JsVal → String
  | .vNull => "null"
  | .vUndefined => "null"
  | .vStr s => "\"" ++ jsonEscape s ++ "\""
  | .vNum n => toString n
  | .vBool b => if b then "true" else "false"
  | .vObj fs => "\x7b" ++ String.intercalate ","
      ((fs.attach.filter (fun kv => !isUndefB kv.1.2)).map
        (fun kv => "\"" ++ jsonEscape kv.1.1 ++ "\":" ++ jsonStringify kv.1.2)) ++ "\x7d"
  | .vArr xs => "[" ++ String.intercalate "," (xs.attach.map (fun x => jsonStringify x.1)) ++ "]"
termination_by v => sizeOf v
decreasing_by
  · have h1 : sizeOf kv.1 < sizeOf fs := List.sizeOf_lt_of_mem kv.2
    have h2 : sizeOf kv.1 = 1 + sizeOf kv.1.1 + sizeOf kv.1.2 := by
      obtain ⟨⟨a, b⟩, hm⟩ := kv; simp
    simp only [JsVal.vObj.sizeOf_spec]
    omega
  · have h1 : sizeOf x.1 < sizeOf xs := List.sizeOf_lt_of_mem x.2
    simp only [JsVal.vArr.sizeOf_spec]
    omega

/-! ## The radix router

JS classes Node and Router from the source.  A trie node holds a map from
literal segment text to child node (an insertion-ordered association list,
like a JS object), at most one parametric child tagged with its captured
parameter name, and an optional stored route record.  The part and isParam
fields of the JS Node are never read by insert or lookup (only paramName
is) and are omitted. -/

inductive Trie (α : Type) : Type where
  | node (children : List (String × Trie α)) (paramChild : Option (String × Trie α))
      (store : Option α) : Trie α

def Trie.children {α : Type} : Trie α → List (String × Trie α)
  | .node ch _ _ => ch

def Trie.paramChild {α : Type} : Trie α → Option (String × Trie α)
  | .node _ pc _ => pc

def Trie.store {α : Type} : Trie α → Option α
  | .node _ _ st => st

/-- new Node(): empty children, no parametric child, no record. -/
def Trie.empty {α : Type} : Trie α := .node [] none none

/-- Split a character list at every occurrence of the separator
(JS String.prototype.split with a single-character separator). -/
def splitChar (sep : Char) : List Char → List (List Char)
  | [] => [[]]
  | c :: cs =>
    let r := splitChar sep cs
    if c = sep then [] :: r
    else
      match r with
      | [] => [[c]]
      | g :: gs => (c :: g) :: gs

/-- part.startsWith(":"). -/
def startsWithColon (s : String) : Bool :=
  match s.data with
  | c :: _ => c = ':'
  | [] => false

/-- part.slice(1). -/
def dropFirst (s : String) : String := String.mk (s.data.drop 1)

/-- path.split("/").filter(p => p.length > 0): leading, trailing and
duplicate slashes are discarded with the empty segments. -/
def normalizePath (path : String) : List String :=
  ((splitChar '/' path.data).map String.mk).filter (fun p => p ≠ "")

/-- The per-segment loop of Router.insert, by recursion on the remaining
segments.  A segment starting with ":" descends into the parametric child,
creating it (with its captured parameter name) only if absent — an existing
parametric child keeps its first-registered name.  Other segments descend
into (or create) the literal child keyed by the exact segment text.  After
all segments, the record is stored on the terminal node, overwriting any
prior record there. -/
def insertSegs {α : Type} : List String → Trie α → α → Trie α
  | [], .node ch pc _, d => .node ch pc (some d)
  | s :: rest, .node ch pc st, d =>
    if startsWithColon s then
      match pc with
      | none => .node ch (some (dropFirst s, insertSegs rest Trie.empty d)) st
      | some (nm, c) => .node ch (some (nm, insertSegs rest c d)) st
    else
      match afind ch s with
      | none => .node (aset ch s (insertSegs rest Trie.empty d)) pc st
      | some c => .node (aset ch s (insertSegs rest c d)) pc st

/-- The per-segment loop of Router.lookup: prefer an exact literal child,
else fall through to the parametric child, capturing the segment text under
the stored parameter name; no backtracking.  Returns the terminal record
paired with the captured parameters (a JS object written left to right). -/
def lookupSegs {α : Type} : List String → Trie α → List (String × String) →
    Option (α × List (String × String))
  | [], .node _ _ st, ps =>
    match st with
    | some d => some (d, ps)
    | none => none
  | s :: rest, .node ch pc _, ps =>
    match afind ch s with
    | some c => lookupSegs rest c ps
    | none =>
      match pc with
      | some (nm, c) => lookupSegs rest c (aset ps nm s)
      | none => none

/-- class Router: one trie per HTTP method. -/
structure Router (α : Type) : Type where
  root : Trie α

def Router.empty {α : Type} : Router α := ⟨Trie.empty⟩

/-- Router.insert(path, data). -/
def Router.insert {α : Type} (r : Router α) (path : String) (d : α) : Router α :=
  ⟨insertSegs (normalizePath path) r.root d⟩

/-- Router.lookup(path): the stored record and the captured params,
or none. -/
def Router.lookup {α : Type} (r : Router α) (path : String) :
    Option (α × List (String × String)) :=
  lookupSegs (normalizePath path) r.root []

/-- Modelled from the spec: the exhaustive matcher the spec contrasts
lookup against, written from the specification words only — at each level
try the literal child first and, if the whole remaining match fails there,
backtrack into the parametric child.  Used solely to state that lookup
misses paths this matcher finds. -/
def specMatch {α : Type} : List String → Trie α → List (String × String) →
    Option (α × List (String × String))
  | [], .node _ _ st, ps =>
    match st with
    | some d => some (d, ps)
    | none => none
  | s :: rest, .node ch pc _, ps =>
    (match afind ch s with
     | some c => specMatch rest c ps
     | none => none).orElse (fun _ =>
      match pc with
      | some (nm, c) => specMatch rest c (aset ps nm s)
      | none => none)

/-- All parameter names stored anywhere in a trie (fuelled recursion over
the nested children lists; the wrapper supplies ample fuel). -/
def paramNamesF {α : Type} : Nat → Trie α → List String
  | 0, _ => []
  | n + 1, .node ch pc _ =>
    (match pc with
     | some (nm, c) => nm :: paramNamesF n c
     | none => []) ++ (ch.map (fun kc => paramNamesF n kc.2)).flatten

def paramNames {α : Type} (t : Trie α) : List String := paramNamesF 1000 t

/-- The invariant of every trie the engine builds: no literal child is keyed
by a text starting with ":" (insert routes such segments to the parametric
child), recursively. -/
inductive GoodT {α : Type} : Trie α → Prop where
  | mk : ∀ (ch : List (String × Trie α)) (pc : Option (String × Trie α)) (st : Option α),
      (∀ k c, (k, c) ∈ ch → startsWithColon k = false) →
      (∀ k c, (k, c) ∈ ch → GoodT c) →
      (∀ nm c, pc = some (nm, c) → GoodT c) →
      GoodT (.node ch pc st)

/-- The trie contains the descent path that lookup takes for these
segments: literal segments find a literal child, parametric segments find
the parametric child. -/
inductive HasPath {α : Type} : Trie α → List String → Prop where
  | nil : ∀ t, HasPath t []
  | lit : ∀ ch pc st s rest c, startsWithColon s = false → afind ch s = some c →
      HasPath c rest → HasPath (.node ch pc st) (s :: rest)
  | par : ∀ ch pc st s rest nm c, startsWithColon s = true → pc = some (nm, c) →
      HasPath c rest → HasPath (.node ch pc st) (s :: rest)

/-- Two segments occupy the same trie position: two parametric segments do
(whatever their names), two equal literals do. -/
def eqPos (a b : String) : Bool :=
  if startsWithColon a then startsWithColon b else a = b

/-- Two normalized segment sequences land on the same trie position. -/
def samePos : List String → List String → Bool
  | [], [] => true
  | a :: as, b :: bs => eqPos a b && samePos as bs
  | _, _ => false

/-! ## The scope tree

class Linear: each Scope holds its own decorator table (chained to the
parent table by prototype), middleware and hook lists snapshotted from the
parent at construction, an accumulated prefix, and a validator compiler
inherited by reference.  The tree is modelled as a list of ScopeData
indexed by creation order (the scope id); mutation of a scope is functional
update of its entry.  The shared Router set, server handle and rootConfig
are not part of the per-scope state the claims concern and are carried by
the runtime model instead.  α is the type of middleware and hook function
values, β the type of decorator values. -/

inductive HookCat : Type where
  | onRequest | preValidation | preHandler | onSend | onResponse | onError | onTimeout
deriving DecidableEq

/-- The seven named hook lists of a Scope. -/
structure Hooks (α : Type) : Type where
  onRequest : List α
  preValidation : List α
  preHandler : List α
  onSend : List α
  onResponse : List α
  onError : List α
  onTimeout : List α
deriving DecidableEq

def Hooks.empty {α : Type} : Hooks α :=
  ⟨[], [], [], [], [], [], []⟩

def Hooks.get {α : Type} (h : Hooks α) : HookCat → List α
  | .onRequest => h.onRequest
  | .preValidation => h.preValidation
  | .preHandler => h.preHandler
  | .onSend => h.onSend
  | .onResponse => h.onResponse
  | .onError => h.onError
  | .onTimeout => h.onTimeout

/-- this.hooks[name].push(fn) for a valid category name (the seven
categories are exactly the keys of the hooks object, so the truthiness
guard in addHook always passes for them; other names are ignored by the
source and are not representable here). -/
def Hooks.push {α : Type} (h : Hooks α) : HookCat → α → Hooks α
  | .onRequest, f => { h with onRequest := h.onRequest ++ [f] }
  | .preValidation, f => { h with preValidation := h.preValidation ++ [f] }
  | .preHandler, f => { h with preHandler := h.preHandler ++ [f] }
  | .onSend, f => { h with onSend := h.onSend ++ [f] }
  | .onResponse, f => { h with onResponse := h.onResponse ++ [f] }
  | .onError, f => { h with onError := h.onError ++ [f] }
  | .onTimeout, f => { h with onTimeout := h.onTimeout ++ [f] }

/-- The validator compiler reference a Scope carries: the built-in default
compiler, or a user-supplied one (identified abstractly). -/
inductive VComp : Type where
  | dflt
  | custom (id : Nat)
deriving DecidableEq

/-- The per-scope state of one Linear instance. -/
structure ScopeData (α β : Type) : Type where
  parent : Option Nat
  pfx : String
  decorators : List (String × β)
  middlewares : List α
  hooks : Hooks α
  vc : VComp
deriving DecidableEq

/-- The scope tree: scopes indexed by creation order. -/
abbrev World (α β : Type) : Type := List (ScopeData α β)

/-- The root Scope built by the Linear constructor with parent = null. -/
def rootScope {α β : Type} : ScopeData α β :=
  { parent := none, pfx := "", decorators := [], middlewares := [],
    hooks := Hooks.empty, vc := .dflt }

def rootWorld {α β : Type} : World α β := [rootScope]

/-- The Linear constructor with a parent: prefix accumulates, the decorator
table starts empty but chains to the parent (Object.create), middleware and
every hook list are copied by value (one-time snapshot), and the validator
compiler is inherited by reference. -/
def mkChild {α β : Type} (pd : ScopeData α β) (pid : Nat) (px : String) : ScopeData α β :=
  { parent := some pid, pfx := pd.pfx ++ px, decorators := [],
    middlewares := pd.middlewares, hooks := pd.hooks, vc := pd.vc }

/-- The mutating Scope operations the claims quantify over. register sid px
is the encapsulating path of Linear.register: it creates a fresh child
Scope of sid (a plugin tagged to skip encapsulation runs its calls directly
against sid, which the other commands already express). -/
inductive Cmd (α β : Type) : Type where
  | use (sid : Nat) (f : α)
  | addHook (sid : Nat) (cat : HookCat) (f : α)
  | decorate (sid : Nat) (name : String) (v : β)
  | setValidatorCompiler (sid : Nat) (c : VComp)
  | register (sid : Nat) (px : String)
deriving DecidableEq

/-- Functional update of the scope with the given id. -/
def updW {α β : Type} (w : World α β) (sid : Nat) (g : ScopeData α β → ScopeData α β) :
    World α β :=
  match w.get? sid with
  | some sd => w.set sid (g sd)
  | none => w

/-- One step of the scope-tree state machine. -/
def exec {α β : Type} (w : World α β) : Cmd α β → World α β
  | .use sid f => updW w sid (fun sd => { sd with middlewares := sd.middlewares ++ [f] })
  | .addHook sid cat f => updW w sid (fun sd => { sd with hooks := sd.hooks.push cat f })
  | .decorate sid n v => updW w sid (fun sd => { sd with decorators := aset sd.decorators n v })
  | .setValidatorCompiler sid c => updW w sid (fun sd => { sd with vc := c })
  | .register sid px =>
    match w.get? sid with
    | some pd => w ++ [mkChild pd sid px]
    | none => w

def execs {α β : Type} (w : World α β) : List (Cmd α β) → World α β
  | [] => w
  | c :: cs => execs (exec w c) cs

/-- Whether a command mutates the scope with id i (register mutates no
existing scope: it only appends a new one). -/
def touches {α β : Type} : Cmd α β → Nat → Bool
  | .use sid _, i => sid == i
  | .addHook sid _ _, i => sid == i
  | .decorate sid _ _, i => sid == i
  | .setValidatorCompiler sid _, i => sid == i
  | .register _ _, _ => false

/-- Whether a command is a use or addHook on scope i (an addition to its
middleware or hook lists). -/
def isAddTo {α β : Type} : Cmd α β → Nat → Bool
  | .use sid _, i => sid == i
  | .addHook sid _ _, i => sid == i
  | _, _ => false

def isSetVC {α β : Type} : Cmd α β → Bool
  | .setValidatorCompiler _ _ => true
  | _ => false

/-- The middleware functions added by a command list (in order). -/
def usesIn {α β : Type} : List (Cmd α β) → List α
  | [] => []
  | .use _ f :: cs => f :: usesIn cs
  | _ :: cs => usesIn cs

/-- The hook functions added to one category by a command list (in order). -/
def hooksIn {α β : Type} (cat : HookCat) : List (Cmd α β) → List α
  | [] => []
  | .addHook _ cat' f :: cs => if cat' = cat then f :: hooksIn cat cs else hooksIn cat cs
  | _ :: cs => hooksIn cat cs

/-- The fields a new Context receives from its Scope:
Object.assign(this, scope.decorators) copies exactly the scope table's own
enumerable entries. -/
def ctxFields {α β : Type} (w : World α β) (sid : Nat) : List (String × β) :=
  match w.get? sid with
  | some sd => sd.decorators
  | none => []

/-- Reading a decorator through the prototype chain of scope.decorators
(the lookup the source comments describe): the own table first, then the
parent chain.  Parents always have smaller ids than children, so the world
size bounds the chain length and serves as fuel. -/
def chainLookupF {α β : Type} : Nat → World α β → Nat → String → Option β
  | 0, _, _, _ => none
  | fuel + 1, w, sid, n =>
    match w.get? sid with
    | none => none
    | some sd =>
      match afind sd.decorators n with
      | some v => some v
      | none =>
        match sd.parent with
        | some p => chainLookupF fuel w p n
        | none => none

def chainLookup {α β : Type} (w : World α β) (sid : Nat) (n : String) : Option β :=
  chainLookupF w.length w sid n

/-! ## The default validator

defaultValidator from the source: schema => data => { ... }.  Property
reads and truthiness are the JS ones modelled above.  A truthy
schema.required that is not an array would make the JS for..of throw; the
engine never builds such a schema and the case is mapped to the
no-error result here. -/

def defaultValidator (schema : JsVal) (data : JsVal) : JsVal :=
  if truthy schema = false then .vNull
  else
    match getField schema "required" with
    | .vArr keys =>
      if jsTypeofIsObject data then
        match keys.find? (fun k => !truthy data || isUndefB (getField data (jsToString k))) with
        | some k => .vObj [("message", .vStr ("Missing required property: " ++ jsToString k))]
        | none => .vNull
      else .vNull
    | _ => .vNull

/-! ## The per-request runtime

Context, ctx.send, Linear.run and the request lifecycle of Linear.listen.
Handlers, middlewares and hooks are arbitrary functions from a Context to
a new Context and an optional thrown error.  Execution is instrumented
with a trace of events, one per function invocation or lifecycle action,
so that claims about phases never running are expressible. -/

/-- The mutable response-transport state (the parts of the Node
ServerResponse the engine reads and writes).  Header names are recorded as
the engine writes them; the engine itself always uses the exact names
Content-Type and Content-Length, so no case normalization is needed. -/
structure Res : Type where
  statusCode : Nat := 200
  headers : List (String × String) := []
  headersSent : Bool := false
  writableEnded : Bool := false
  body : Option String := none

/-- The per-request Context state (class Context): the transport state,
the parsed query and captured params, the body slot, the responded flag,
the payload slot used by send/onSend and the recorded error. -/
structure Ctx : Type where
  method : String := "GET"
  path : String := "/"
  query : JsVal := .vObj []
  params : JsVal := .vObj []
  body : JsVal := .vNull
  responded : Bool := false
  payload : JsVal := .vNull
  error : Option String := none
  res : Res := {}

/-- ctx.status(code). -/
def Ctx.status (c : Ctx) (code : Nat) : Ctx :=
  { c with res := { c.res with statusCode := code } }

/-- A middleware, hook or handler: receives the Context, returns the
updated Context and an optional thrown error message. -/
def F : Type := Ctx → Ctx × Option String

/-- Linear.run(ctx, handlers): invoke the functions in order, breaking as
soon as the Context is responded; a thrown error stops the loop and is
propagated.  Also returns how many functions were invoked. -/
def runT (fs : List F) (ctx : Ctx) : Ctx × Option String × Nat :=
  match fs with
  | [] => (ctx, none, 0)
  | f :: rest =>
    if ctx.responded then (ctx, none, 0)
    else
      match f ctx with
      | (c, some e) => (c, some e, 1)
      | (c, none) =>
        let r := runT rest c
        (r.1, r.2.1, r.2.2 + 1)

/-- The body of ctx.send installed by createContext, with the number of
onSend hooks that were invoked.  Guard: a no-op if already responded or
the transport already ended.  Otherwise store the payload, run the onSend
hooks (each may replace ctx.payload), serialize (objects via
JSON.stringify, anything else via String(body || "")), set Content-Type
(for objects, when unset) and Content-Length (when unset) if headers are
not flushed yet, write head and body, and mark responded.  A throw from an
onSend hook is only logged; the transport is ended without a body if
headers were not sent.  (The asynchronous onResponse run scheduled via
setImmediate after the response is final lies outside this synchronous
model.) -/
def sendT (onSendHooks : List F) (ctx : Ctx) (data : JsVal) : Ctx × Nat :=
  if ctx.responded || ctx.res.writableEnded then (ctx, 0)
  else
    let c0 := { ctx with payload := data }
    let r := runT onSendHooks c0
    let c1 := r.1
    let n1 := r.2.2
    match r.2.1 with
    | some _ =>
      if c1.res.headersSent then (c1, n1)
      else ({ c1 with res := { c1.res with writableEnded := true, body := some "" } }, n1)
    | none =>
      let isObj := isObjectNonNull c1.payload
      let bodyStr := if isObj then jsonStringify c1.payload
        else if truthy c1.payload then jsToString c1.payload else ""
      let r0 := c1.res
      let r1 :=
        if r0.headersSent then r0
        else
          let ra := if isObj && (afind r0.headers "Content-Type").isNone then
              { r0 with headers := aset r0.headers "Content-Type" "application/json" }
            else r0
          let rb := if (afind ra.headers "Content-Length").isNone then
              { ra with headers := aset ra.headers "Content-Length" (toString bodyStr.utf8ByteSize) }
            else ra
          { rb with
            statusCode := (if rb.statusCode = 0 then 200 else rb.statusCode)
            headersSent := true }
      ({ c1 with
         res := { r1 with writableEnded := true, body := some bodyStr }
         responded := true }, n1)

/-- One trace event per invoked function or lifecycle action. -/
inductive Ev : Type where
  | onRequest | bodyParse | middleware | preValidation
  | valBody | valQuery | valParams
  | preHandler | handler | notFound | onError | onSend | onTimeout
deriving DecidableEq

/-- The hook and middleware lists of the Scope that owns a request, plus
the root parseBody configuration, as the lifecycle consumes them. -/
structure ScopeRT : Type where
  middlewares : List F := []
  onRequest : List F := []
  preValidation : List F := []
  preHandler : List F := []
  onSend : List F := []
  onError : List F := []
  onTimeout : List F := []

/-- The compiled validators stored on a route record.  The source stores a
validators object on every route; fields are present only for the schema
fields that were compiled. -/
structure Validators : Type where
  body : Option (JsVal → JsVal) := none
  querystring : Option (JsVal → JsVal) := none
  params : Option (JsVal → JsVal) := none

/-- The part of a matched route record the lifecycle consumes. -/
structure RouteMatch : Type where
  handlers : List F
  validators : Validators := {}

/-- The outcome of a straight-line piece of the try block: continue,
an early return, or a thrown error. -/
inductive POut : Type where
  | cont (c : Ctx) (t : List Ev)
  | ret (c : Ctx) (t : List Ev)
  | thr (c : Ctx) (t : List Ev) (e : String)

def bindP (p : POut) (f : Ctx → List Ev → POut) : POut :=
  match p with
  | .cont c t => f c t
  | x => x

/-- One hook/middleware/handler phase: run the list, trace one event per
invocation; a throw aborts the try block; when the source follows the
phase with if (ctx.responded) return, checkResp is true. -/
def hookPhase (ev : Ev) (fs : List F) (checkResp : Bool) (c : Ctx) (t : List Ev) : POut :=
  let r := runT fs c
  let t' := t ++ List.replicate r.2.2 ev
  match r.2.1 with
  | some err => .thr r.1 t' err
  | none => if checkResp && r.1.responded then .ret r.1 t' else .cont r.1 t'

/-- Body acquisition: runs when rootConfig.parseBody is set and ctx.body is
still null.  The streaming and decoding of _parseBody are external
collaborators; their outcome for this request is the pb argument (a
decoded value, or a thrown error such as Payload Too Large or Invalid
Body), rethrown into the try block on failure. -/
def bodyPhase (parseBody : Bool) (pb : Except String JsVal) (c : Ctx) (t : List Ev) : POut :=
  if parseBody ∧ isNullB c.body then
    match pb with
    | .error e => .thr c (t ++ [Ev.bodyParse]) e
    | .ok b => .cont { c with body := b } (t ++ [Ev.bodyParse])
  else .cont c t

/-- The validator cascade of Lifecycle 5: err starts null; the body
validator runs if compiled; the querystring validator runs if err is still
falsy and it is compiled; then likewise the params validator.  Returns the
final err value and the invocation events in order. -/
def valRun (v : Validators) (c : Ctx) : JsVal × List Ev :=
  let s1 : JsVal × List Ev :=
    match v.body with
    | some f => (f c.body, [Ev.valBody])
    | none => (.vNull, [])
  let s2 : JsVal × List Ev :=
    if truthy s1.1 then s1
    else
      match v.querystring with
      | some f => (f c.query, s1.2 ++ [Ev.valQuery])
      | none => s1
  if truthy s2.1 then s2
  else
    match v.params with
    | some f => (f c.params, s2.2 ++ [Ev.valParams])
    | none => s2

/-- Lifecycle 5: if the final err is truthy, respond 400 with the
validation details and return, ending the route phase. -/
def validationPhase (sc : ScopeRT) (v : Validators) (c : Ctx) (t : List Ev) : POut :=
  let r := valRun v c
  if truthy r.1 then
    let c1 := c.status 400
    let s := sendT sc.onSend c1 (.vObj [("error", .vStr "Validation Failed"), ("details", r.1)])
    .ret s.1 (t ++ r.2 ++ List.replicate s.2 Ev.onSend)
  else .cont c (t ++ r.2)

/-- Lifecycle 4-7 for a matched route: preValidation hooks, validation,
preHandler hooks, then the handler chain. -/
def routePhase (sc : ScopeRT) (m : RouteMatch) (c : Ctx) (t : List Ev) : POut :=
  bindP (hookPhase Ev.preValidation sc.preValidation true c t) fun c t =>
  bindP (validationPhase sc m.validators c t) fun c t =>
  bindP (hookPhase Ev.preHandler sc.preHandler true c t) fun c t =>
  hookPhase Ev.handler m.handlers false c t

/-- The no-match branch: synthesize the 404 response carrying the path. -/
def notFoundPhase (sc : ScopeRT) (c : Ctx) (t : List Ev) : POut :=
  let c1 := c.status 404
  let s := sendT sc.onSend c1 (.vObj [("error", .vStr "Not Found"), ("path", .vStr c.path)])
  .cont s.1 (t ++ [Ev.notFound] ++ List.replicate s.2 Ev.onSend)

/-- Lifecycle 1-3: onRequest hooks, body acquisition, middleware stack. -/
def preRoute (sc : ScopeRT) (parseBody : Bool) (pb : Except String JsVal) (c : Ctx) : POut :=
  bindP (hookPhase Ev.onRequest sc.onRequest true c []) fun c t =>
  bindP (bodyPhase parseBody pb c t) fun c t =>
  hookPhase Ev.middleware sc.middlewares true c t

/-- The whole try block of the request listener. -/
def dispatchCore (sc : ScopeRT) (m? : Option RouteMatch) (parseBody : Bool)
    (pb : Except String JsVal) (ctx0 : Ctx) : POut :=
  bindP (preRoute sc parseBody pb ctx0) fun c t =>
    match m? with
    | some m => routePhase sc m c t
    | none => notFoundPhase sc c t

/-- The catch block: record the error, run the onError hooks (their own
throw is only logged), and if still unresponded synthesize the fallback
response — status 500 if the current status is the default 200, the
current status otherwise, with the error message (or a generic one when
the message is empty). -/
def errorPhase (sc : ScopeRT) (e : String) (c : Ctx) (t : List Ev) : Ctx × List Ev :=
  let c0 := { c with error := some e }
  let r := runT sc.onError c0
  let t1 := t ++ List.replicate r.2.2 Ev.onError
  if r.1.responded then (r.1, t1)
  else
    let st := if r.1.res.statusCode = 200 then 500 else r.1.res.statusCode
    let msg := if e = "" then "Internal Server Error" else e
    let s := sendT sc.onSend (Ctx.status r.1 st) (.vObj [("error", .vStr msg)])
    (s.1, t1 ++ List.replicate s.2 Ev.onSend)

/-- try/catch of the request listener: the try block, with thrown errors
routed to the error phase. -/
def dispatch (sc : ScopeRT) (m? : Option RouteMatch) (parseBody : Bool)
    (pb : Except String JsVal) (ctx0 : Ctx) : Ctx × List Ev :=
  match dispatchCore sc m? parseBody pb ctx0 with
  | .cont c t => (c, t)
  | .ret c t => (c, t)
  | .thr c t e => errorPhase sc e c t

/-- try/catch/finally: however the dispatch concludes (normal response,
early return, error response), the finally clause cancels the watchdog
timer; the third component counts the clearTimeout calls. -/
def handleRequest (sc : ScopeRT) (m? : Option RouteMatch) (parseBody : Bool)
    (pb : Except String JsVal) (ctx0 : Ctx) : Ctx × List Ev × Nat :=
  let r := dispatch sc m? parseBody pb ctx0
  (r.1, r.2, 1)

/-- The watchdog callback armed by setTimeout, run against the Context
state at the moment the scheduler fires it: a no-op if the request has
been responded; otherwise record the timeout error, run the owning
Scope's onTimeout hooks (failures logged) and, if still unresponded,
synthesize the 504 response. -/
def timerCb (sc : ScopeRT) (ctx : Ctx) : Ctx × List Ev :=
  if ctx.responded then (ctx, [])
  else
    let c0 := { ctx with error := some "Gateway Timeout" }
    let r := runT sc.onTimeout c0
    let t := List.replicate r.2.2 Ev.onTimeout
    if r.1.responded then (r.1, t)
    else
      let s := sendT sc.onSend (Ctx.status r.1 504) (.vObj [("error", .vStr "Gateway Timeout")])
      (s.1, t ++ List.replicate s.2 Ev.onSend)

/-! ## Concrete instances used by the claim statements -/

/-- addRoute over a list of (path, record) pairs, left to right. -/
def insertMany {α : Type} (r : Router α) (routes : List (String × α)) : Router α :=
  routes.foldl (fun acc q => acc.insert q.1 q.2) r

/-- A parametric route shadowed one level up by a literal sibling. -/
def shadowRouter : Router Nat :=
  Router.insert (Router.insert Router.empty "/:x/c" 1) "/a/b" 2

/-- Two parameter names registered at the same trie position. -/
def paramNameRouter : Router Nat :=
  Router.insert (Router.insert Router.empty "/u/:a" 10) "/u/:b" 20

/-- A later insertion with a different segment sequence that terminates at
the same trie position. -/
def overwriteRouter : Router Nat :=
  Router.insert (Router.insert Router.empty "/u/:x" 1) "/u/:y" 2

/-- Root scope, then an encapsulated child (id 1), then decorate on the
root after the child exists. -/
def decoAfterWorld : World Nat Nat :=
  exec (exec rootWorld (Cmd.register 0 "")) (Cmd.decorate 0 "db" 7)

/-- Root scope decorated first, child created afterwards. -/
def decoBeforeWorld : World Nat Nat :=
  exec (exec rootWorld (Cmd.decorate 0 "db" 7)) (Cmd.register 0 "")

/-- The trace of a phase outcome. -/
def traceOf : POut → List Ev
  | .cont _ t => t
  | .ret _ t => t
  | .thr _ t _ => t

/-- The route match used by the C6 witness: one compiled body validator
that always fails. -/
def failingMatch : RouteMatch :=
  { handlers := [],
    validators := { body := some (fun _ => JsVal.vObj [("message", JsVal.vStr "bad")]) } }

/-! ## Lemmas and claim theorems -/

/-! ## Router lemmas -/

theorem afind_aset_self {β : Type} (l : List (String × β)) (k : String) (v : β) :
    afind (aset l k v) k = some v := by
  induction l with
  | nil => simp [aset, afind]
  | cons hd tl ih =>
    obtain ⟨k', v'⟩ := hd
    by_cases h : k' = k
    · subst h; simp [aset, afind]
    · simp only [aset, if_neg h, afind, ih, if_neg h]

theorem afind_aset_ne {β : Type} (l : List (String × β)) (k j : String) (v : β)
    (h : k ≠ j) : afind (aset l k v) j = afind l j := by
  induction l with
  | nil => simp [aset, afind, h]
  | cons hd tl ih =>
    obtain ⟨k', v'⟩ := hd
    by_cases h' : k' = k
    · subst h'; simp [aset, afind, h]
    · simp only [aset, if_neg h', afind, ih]

theorem mem_aset {β : Type} {l : List (String × β)} {k : String} {v : β} {p : String × β}
    (h : p ∈ aset l k v) : p = (k, v) ∨ p ∈ l := by
  induction l with
  | nil => simpa [aset] using h
  | cons hd tl ih =>
    obtain ⟨k', v'⟩ := hd
    by_cases h' : k' = k
    · subst h'
      simp only [aset, if_pos rfl] at h
      rcases List.mem_cons.mp h with h | h
      · exact Or.inl h
      · exact Or.inr (List.mem_cons_of_mem _ h)
    · simp only [aset, if_neg h'] at h
      rcases List.mem_cons.mp h with h | h
      · exact Or.inr (h ▸ List.mem_cons_self _ _)
      · rcases ih h with h | h
        · exact Or.inl h
        · exact Or.inr (List.mem_cons_of_mem _ h)

theorem afind_mem {β : Type} {l : List (String × β)} {k : String} {v : β}
    (h : afind l k = some v) : (k, v) ∈ l := by
  induction l with
  | nil => simp [afind] at h
  | cons hd tl ih =>
    obtain ⟨k', v'⟩ := hd
    by_cases h' : k' = k
    · subst h'
      simp only [afind, if_pos rfl] at h
      injection h with h
      subst h; exact List.mem_cons_self _ _
    · simp only [afind, if_neg h'] at h
      exact List.mem_cons_of_mem _ (ih h)

theorem goodT_empty {α : Type} : GoodT (Trie.empty (α := α)) :=
  GoodT.mk [] none none (by intro k c h; cases h) (by intro k c h; cases h)
    (by intro nm c h; cases h)

theorem afind_colon_none {α : Type} {ch : List (String × Trie α)}
    (h : ∀ k c, (k, c) ∈ ch → startsWithColon k = false)
    {s : String} (hs : startsWithColon s = true) : afind ch s = none := by
  induction ch with
  | nil => rfl
  | cons hd tl ih =>
    obtain ⟨k', c'⟩ := hd
    have hk : startsWithColon k' = false := h k' c' (List.mem_cons_self _ _)
    have hne : k' ≠ s := by
      intro e; subst e; rw [hs] at hk; exact Bool.noConfusion hk
    simp only [afind, if_neg hne]
    exact ih (fun k c hm => h k c (List.mem_cons_of_mem _ hm))

theorem goodT_insert {α : Type} :
    ∀ (ps : List String) (t : Trie α) (d : α), GoodT t → GoodT (insertSegs ps t d) := by
  intro ps
  induction ps with
  | nil =>
    intro t d hg
    obtain ⟨ch, pc, st, hkey, hch, hpc⟩ := hg
    exact GoodT.mk ch pc (some d) hkey hch hpc
  | cons s rest ih =>
    intro t d hg
    obtain ⟨ch, pc, st, hkey, hch, hpc⟩ := hg
    by_cases hs : startsWithColon s = true
    · cases hpc' : pc with
      | none =>
        simp only [insertSegs, hs, if_true, hpc']
        refine GoodT.mk _ _ _ hkey hch ?_
        intro nm c h
        injection h with h
        injection h with h1 h2
        exact h2 ▸ ih Trie.empty d goodT_empty
      | some q =>
        obtain ⟨nm0, c0⟩ := q
        simp only [insertSegs, hs, if_true, hpc']
        refine GoodT.mk _ _ _ hkey hch ?_
        intro nm c h
        injection h with h
        injection h with h1 h2
        exact h2 ▸ ih c0 d (hpc nm0 c0 hpc')
    · have hs' : startsWithColon s = false := by
        cases h : startsWithColon s
        · rfl
        · exact absurd h hs
      cases hf : afind ch s with
      | none =>
        simp only [insertSegs, hs', Bool.false_eq_true, if_false, hf]
        refine GoodT.mk _ _ _ ?_ ?_ hpc
        · intro k c hm
          rcases mem_aset hm with h | h
          · injection h with h1 h2
            subst h1; exact hs'
          · exact hkey k c h
        · intro k c hm
          rcases mem_aset hm with h | h
          · injection h with h1 h2
            exact h2 ▸ ih Trie.empty d goodT_empty
          · exact hch k c h
      | some c0 =>
        simp only [insertSegs, hs', Bool.false_eq_true, if_false, hf]
        refine GoodT.mk _ _ _ ?_ ?_ hpc
        · intro k c hm
          rcases mem_aset hm with h | h
          · injection h with h1 h2
            subst h1; exact hs'
          · exact hkey k c h
        · intro k c hm
          rcases mem_aset hm with h | h
          · injection h with h1 h2
            exact h2 ▸ ih c0 d (hch s c0 (afind_mem hf))
          · exact hch k c h

theorem hasPath_insert {α : Type} :
    ∀ (ps : List String) (t : Trie α) (d : α), HasPath (insertSegs ps t d) ps := by
  intro ps
  induction ps with
  | nil => intro t d; exact HasPath.nil _
  | cons s rest ih =>
    intro t d
    obtain ⟨ch, pc, st⟩ := t
    by_cases hs : startsWithColon s = true
    · cases hpc : pc with
      | none =>
        simp only [insertSegs, hs, if_true, hpc]
        exact HasPath.par _ _ _ _ _ _ _ hs rfl (ih Trie.empty d)
      | some q =>
        obtain ⟨nm0, c0⟩ := q
        simp only [insertSegs, hs, if_true, hpc]
        exact HasPath.par _ _ _ _ _ _ _ hs rfl (ih c0 d)
    · have hs' : startsWithColon s = false := by
        cases h : startsWithColon s
        · rfl
        · exact absurd h hs
      cases hf : afind ch s with
      | none =>
        simp only [insertSegs, hs', Bool.false_eq_true, if_false, hf]
        exact HasPath.lit _ _ _ _ _ _ hs' (afind_aset_self _ _ _) (ih Trie.empty d)
      | some c0 =>
        simp only [insertSegs, hs', Bool.false_eq_true, if_false, hf]
        exact HasPath.lit _ _ _ _ _ _ hs' (afind_aset_self _ _ _) (ih c0 d)

theorem hasPath_insert_other {α : Type} :
    ∀ (ps qs : List String) (t : Trie α) (d : α),
      HasPath t ps → HasPath (insertSegs qs t d) ps := by
  intro ps
  induction ps with
  | nil => intro qs t d _; exact HasPath.nil _
  | cons p rest ih =>
    intro qs t d hp
    cases hp with
    | lit ch pc st _ _ c hcol hf hrest =>
      cases qs with
      | nil => exact HasPath.lit _ _ _ _ _ _ hcol hf hrest
      | cons q qs' =>
        by_cases hq : startsWithColon q = true
        · cases hpc : pc with
          | none =>
            simp only [insertSegs, hq, if_true, hpc]
            exact HasPath.lit _ _ _ _ _ _ hcol hf hrest
          | some x =>
            obtain ⟨nm0, c0⟩ := x
            simp only [insertSegs, hq, if_true, hpc]
            exact HasPath.lit _ _ _ _ _ _ hcol hf hrest
        · have hq' : startsWithColon q = false := by
            cases h : startsWithColon q
            · rfl
            · exact absurd h hq
          by_cases hqp : q = p
          · subst hqp
            simp only [insertSegs, hq', Bool.false_eq_true, if_false, hf]
            exact HasPath.lit _ _ _ _ _ _ hcol (afind_aset_self _ _ _) (ih qs' c d hrest)
          · cases hf' : afind ch q with
            | none =>
              simp only [insertSegs, hq', Bool.false_eq_true, if_false, hf']
              exact HasPath.lit _ _ _ _ _ _ hcol
                ((afind_aset_ne _ _ _ _ hqp).trans hf) hrest
            | some c0 =>
              simp only [insertSegs, hq', Bool.false_eq_true, if_false, hf']
              exact HasPath.lit _ _ _ _ _ _ hcol
                ((afind_aset_ne _ _ _ _ hqp).trans hf) hrest
    | par ch pc st _ _ nm c hcol hpc hrest =>
      cases qs with
      | nil => exact HasPath.par _ _ _ _ _ _ _ hcol hpc hrest
      | cons q qs' =>
        by_cases hq : startsWithColon q = true
        · rw [hpc]
          simp only [insertSegs, hq, if_true]
          exact HasPath.par _ _ _ _ _ _ _ hcol rfl (ih qs' c d hrest)
        · have hq' : startsWithColon q = false := by
            cases h : startsWithColon q
            · rfl
            · exact absurd h hq
          cases hf' : afind ch q with
          | none =>
            simp only [insertSegs, hq', Bool.false_eq_true, if_false, hf']
            exact HasPath.par _ _ _ _ _ _ _ hcol hpc hrest
          | some c0 =>
            simp only [insertSegs, hq', Bool.false_eq_true, if_false, hf']
            exact HasPath.par _ _ _ _ _ _ _ hcol hpc hrest

/-- Inserting then looking up the very same segments finds the record just
stored; on an all-literal path no parameter is captured. -/
theorem lookupSegs_insertSegs_self {α : Type} :
    ∀ (ps : List String) (t : Trie α) (d : α) (acc : List (String × String)),
      GoodT t →
      ∃ acc', lookupSegs ps (insertSegs ps t d) acc = some (d, acc') ∧
        ((∀ s ∈ ps, startsWithColon s = false) → acc' = acc) := by
  intro ps
  induction ps with
  | nil =>
    intro t d acc _
    obtain ⟨ch, pc, st⟩ := t
    exact ⟨acc, rfl, fun _ => rfl⟩
  | cons s rest ih =>
    intro t d acc hg
    obtain ⟨ch, pc, st, hkey, hch, hpc⟩ := hg
    by_cases hs : startsWithColon s = true
    · cases hpc' : pc with
      | none =>
        simp only [insertSegs, hs, if_true, hpc', lookupSegs, afind_colon_none hkey hs]
        obtain ⟨acc', h1, _⟩ := ih Trie.empty d (aset acc (dropFirst s) s) goodT_empty
        refine ⟨acc', h1, fun hall => ?_⟩
        exact absurd (hall s (List.mem_cons_self _ _)) (by rw [hs]; exact fun h => Bool.noConfusion h)
      | some q =>
        obtain ⟨nm0, c0⟩ := q
        simp only [insertSegs, hs, if_true, hpc', lookupSegs, afind_colon_none hkey hs]
        obtain ⟨acc', h1, _⟩ := ih c0 d (aset acc nm0 s) (hpc nm0 c0 hpc')
        refine ⟨acc', h1, fun hall => ?_⟩
        exact absurd (hall s (List.mem_cons_self _ _)) (by rw [hs]; exact fun h => Bool.noConfusion h)
    · have hs' : startsWithColon s = false := by
        cases h : startsWithColon s
        · rfl
        · exact absurd h hs
      cases hf : afind ch s with
      | none =>
        simp only [insertSegs, hs', Bool.false_eq_true, if_false, hf, lookupSegs,
          afind_aset_self]
        obtain ⟨acc', h1, h2⟩ := ih Trie.empty d acc goodT_empty
        exact ⟨acc', h1, fun hall => h2 (fun x hx => hall x (List.mem_cons_of_mem _ hx))⟩
      | some c0 =>
        simp only [insertSegs, hs', Bool.false_eq_true, if_false, hf, lookupSegs,
          afind_aset_self]
        obtain ⟨acc', h1, h2⟩ := ih c0 d acc (hch s c0 (afind_mem hf))
        exact ⟨acc', h1, fun hall => h2 (fun x hx => hall x (List.mem_cons_of_mem _ hx))⟩

/-- Inserting along a segment sequence that terminates at a different trie
position does not change what lookup finds along an existing descent
path. -/
theorem lookupSegs_insertSegs_other {α : Type} :
    ∀ (ps qs : List String) (t : Trie α) (d : α) (acc : List (String × String)),
      GoodT t → HasPath t ps → samePos qs ps = false →
      lookupSegs ps (insertSegs qs t d) acc = lookupSegs ps t acc := by
  intro ps
  induction ps with
  | nil =>
    intro qs t d acc _ _ hsp
    cases qs with
    | nil => exact absurd hsp (by simp [samePos])
    | cons q qs' =>
      obtain ⟨ch, pc, st⟩ := t
      by_cases hq : startsWithColon q = true
      · cases hpc : pc with
        | none => simp only [insertSegs, hq, if_true, hpc, lookupSegs]
        | some x =>
          obtain ⟨nm0, c0⟩ := x
          simp only [insertSegs, hq, if_true, hpc, lookupSegs]
      · have hq' : startsWithColon q = false := by
          cases h : startsWithColon q
          · rfl
          · exact absurd h hq
        cases hf' : afind ch q with
        | none => simp only [insertSegs, hq', Bool.false_eq_true, if_false, hf', lookupSegs]
        | some c0 => simp only [insertSegs, hq', Bool.false_eq_true, if_false, hf', lookupSegs]
  | cons p rest ih =>
    intro qs t d acc hg hp hsp
    cases hp with
    | lit ch pc st _ _ c hcol hf hrest =>
      obtain ⟨_, _, _, hkey, hch, hpc⟩ := hg
      cases qs with
      | nil => simp only [insertSegs, lookupSegs]
      | cons q qs' =>
        by_cases hq : startsWithColon q = true
        · have : lookupSegs (p :: rest) (insertSegs (q :: qs') (Trie.node ch pc st) d) acc
              = lookupSegs rest c acc := by
            cases hpc' : pc with
            | none =>
              simp only [insertSegs, hq, if_true, hpc', lookupSegs, hf]
            | some x =>
              obtain ⟨nm0, c0⟩ := x
              simp only [insertSegs, hq, if_true, hpc', lookupSegs, hf]
          rw [this]
          simp only [lookupSegs, hf]
        · have hq' : startsWithColon q = false := by
            cases h : startsWithColon q
            · rfl
            · exact absurd h hq
          by_cases hqp : q = p
          · subst hqp
            have hep : eqPos q q = true := by simp [eqPos, hq']
            have hsp' : samePos qs' rest = false := by
              simp only [samePos, hep, Bool.true_and] at hsp
              exact hsp
            simp only [insertSegs, hq', Bool.false_eq_true, if_false, hf, lookupSegs,
              afind_aset_self]
            rw [ih qs' c d acc (hch q c (afind_mem hf)) hrest hsp']
          · cases hf' : afind ch q with
            | none =>
              simp only [insertSegs, hq', Bool.false_eq_true, if_false, hf', lookupSegs,
                afind_aset_ne _ _ _ _ hqp, hf]
            | some c0 =>
              simp only [insertSegs, hq', Bool.false_eq_true, if_false, hf', lookupSegs,
                afind_aset_ne _ _ _ _ hqp, hf]
    | par ch pc st _ _ nm c hcol hpcEq hrest =>
      obtain ⟨_, _, _, hkey, hch, hpc⟩ := hg
      have hfp : afind ch p = none := afind_colon_none hkey hcol
      cases qs with
      | nil => simp only [insertSegs, lookupSegs]
      | cons q qs' =>
        by_cases hq : startsWithColon q = true
        · have hep : eqPos q p = true := by simp [eqPos, hq, hcol]
          have hsp' : samePos qs' rest = false := by
            simp only [samePos, hep, Bool.true_and] at hsp
            exact hsp
          rw [hpcEq]
          simp only [insertSegs, hq, if_true, lookupSegs, hfp]
          rw [ih qs' c d (aset acc nm p) (hpc nm c hpcEq) hrest hsp']
        · have hq' : startsWithColon q = false := by
            cases h : startsWithColon q
            · rfl
            · exact absurd h hq
          have hqp : q ≠ p := by
            intro e; subst e; rw [hq'] at hcol; exact Bool.noConfusion hcol
          cases hf' : afind ch q with
          | none =>
            simp only [insertSegs, hq', Bool.false_eq_true, if_false, hf', lookupSegs,
              afind_aset_ne _ _ _ _ hqp, hfp, hpcEq]
          | some c0 =>
            simp only [insertSegs, hq', Bool.false_eq_true, if_false, hf', lookupSegs,
              afind_aset_ne _ _ _ _ hqp, hfp, hpcEq]

/-! ## Scope tree lemmas -/

theorem get?_set_self {γ : Type} :
    ∀ (l : List γ) (i : Nat) (x : γ), i < l.length → (l.set i x).get? i = some x := by
  intro l
  induction l with
  | nil => intro i x h; cases h
  | cons hd tl ih =>
    intro i x h
    cases i with
    | zero => rfl
    | succ j => exact ih j x (Nat.lt_of_succ_lt_succ h)

theorem get?_set_ne {γ : Type} :
    ∀ (l : List γ) (i j : Nat) (x : γ), i ≠ j → (l.set i x).get? j = l.get? j := by
  intro l
  induction l with
  | nil => intro i j x _; rfl
  | cons hd tl ih =>
    intro i j x h
    cases i with
    | zero =>
      cases j with
      | zero => exact absurd rfl h
      | succ j' => rfl
    | succ i' =>
      cases j with
      | zero => rfl
      | succ j' => exact ih i' j' x (fun e => h (congrArg Nat.succ e))

theorem get?_set_cases {γ : Type} :
    ∀ (l : List γ) (i j : Nat) (x : γ) (y : γ),
      (l.set i x).get? j = some y → y = x ∨ l.get? j = some y := by
  intro l i j x y h
  by_cases hij : i = j
  · subst hij
    by_cases hl : i < l.length
    · rw [get?_set_self l i x hl] at h
      exact Or.inl (Option.some.inj h).symm
    · rw [List.set_eq_of_length_le (Nat.le_of_not_lt hl)] at h
      exact Or.inr h
  · rw [get?_set_ne l i j x hij] at h
    exact Or.inr h

theorem get?_append_left {γ : Type} :
    ∀ (l m : List γ) (j : Nat), j < l.length → (l ++ m).get? j = l.get? j := by
  intro l
  induction l with
  | nil => intro m j h; cases h
  | cons hd tl ih =>
    intro m j h
    cases j with
    | zero => rfl
    | succ j' => exact ih m j' (Nat.lt_of_succ_lt_succ h)

theorem get?_append_cases {γ : Type} :
    ∀ (l : List γ) (x : γ) (j : Nat) (y : γ),
      (l ++ [x]).get? j = some y → l.get? j = some y ∨ y = x := by
  intro l
  induction l with
  | nil =>
    intro x j y h
    cases j with
    | zero => exact Or.inr (Option.some.inj h).symm
    | succ j' => cases j' <;> cases h
  | cons hd tl ih =>
    intro x j y h
    cases j with
    | zero => exact Or.inl h
    | succ j' =>
      rcases ih x j' y h with h | h
      · exact Or.inl h
      · exact Or.inr h

theorem get?_append_self {γ : Type} :
    ∀ (l : List γ) (x : γ), (l ++ [x]).get? l.length = some x := by
  intro l
  induction l with
  | nil => intro x; rfl
  | cons hd tl ih => intro x; exact ih x

theorem exec_length_le {α β : Type} (w : World α β) (cmd : Cmd α β) :
    w.length ≤ (exec w cmd).length := by
  cases cmd with
  | use sid f =>
    simp only [exec, updW]
    cases w.get? sid <;> simp
  | addHook sid cat f =>
    simp only [exec, updW]
    cases w.get? sid <;> simp
  | decorate sid n v =>
    simp only [exec, updW]
    cases w.get? sid <;> simp
  | setValidatorCompiler sid c =>
    simp only [exec, updW]
    cases w.get? sid <;> simp
  | register sid px =>
    simp only [exec]
    cases w.get? sid <;> simp

theorem exec_get_untouched {α β : Type} (w : World α β) (cmd : Cmd α β) (i : Nat)
    (hi : i < w.length) (h : touches cmd i = false) : (exec w cmd).get? i = w.get? i := by
  have hset : ∀ (sid : Nat) (g : ScopeData α β → ScopeData α β), (sid == i) = false →
      (updW w sid g).get? i = w.get? i := by
    intro sid g hne
    simp only [updW]
    cases w.get? sid with
    | none => rfl
    | some sd => exact get?_set_ne w sid i (g sd) (by simpa using hne)
  cases cmd with
  | use sid f => exact hset sid _ (by simpa [touches] using h)
  | addHook sid cat f => exact hset sid _ (by simpa [touches] using h)
  | decorate sid n v => exact hset sid _ (by simpa [touches] using h)
  | setValidatorCompiler sid c => exact hset sid _ (by simpa [touches] using h)
  | register sid px =>
    simp only [exec]
    cases w.get? sid with
    | none => rfl
    | some pd => exact get?_append_left w [mkChild pd sid px] i hi

theorem execs_get_untouched {α β : Type} :
    ∀ (cmds : List (Cmd α β)) (w : World α β) (i : Nat), i < w.length →
      (∀ cmd ∈ cmds, touches cmd i = false) → (execs w cmds).get? i = w.get? i := by
  intro cmds
  induction cmds with
  | nil => intro w i _ _; rfl
  | cons c cs ih =>
    intro w i hi h
    have h1 : (exec w c).get? i = w.get? i :=
      exec_get_untouched w c i hi (h c (List.mem_cons_self _ _))
    have h2 : i < (exec w c).length := Nat.lt_of_lt_of_le hi (exec_length_le w c)
    calc (execs (exec w c) cs).get? i = (exec w c).get? i :=
          ih (exec w c) i h2 (fun cmd hm => h cmd (List.mem_cons_of_mem _ hm))
      _ = w.get? i := h1

theorem hooks_push_get {α : Type} (h : Hooks α) (cat cat' : HookCat) (f : α) :
    (h.push cat f).get cat' =
      if cat = cat' then h.get cat' ++ [f] else h.get cat' := by
  cases cat <;> cases cat' <;> simp [Hooks.push, Hooks.get]

/-- Running only use/addHook commands against one scope extends its
middleware list and its hook lists with exactly the added functions, in
order, leaving everything else of the scope unchanged. -/
theorem execs_addTo {α β : Type} :
    ∀ (cmds : List (Cmd α β)) (w : World α β) (c : Nat) (cd : ScopeData α β),
      (∀ cmd ∈ cmds, isAddTo cmd c = true) → w.get? c = some cd →
      ∃ cd', (execs w cmds).get? c = some cd' ∧
        cd'.middlewares = cd.middlewares ++ usesIn cmds ∧
        (∀ cat, cd'.hooks.get cat = cd.hooks.get cat ++ hooksIn cat cmds) ∧
        cd'.parent = cd.parent ∧ cd'.decorators = cd.decorators ∧ cd'.vc = cd.vc := by
  intro cmds
  induction cmds with
  | nil =>
    intro w c cd _ hc
    exact ⟨cd, hc, by simp [usesIn], fun cat => by simp [hooksIn], rfl, rfl, rfl⟩
  | cons cmd cs ih =>
    intro w c cd hall hc
    have hlt : c < w.length := by
      by_contra hge
      rw [List.get?_eq_none.mpr (Nat.le_of_not_lt hge)] at hc
      cases hc
    cases cmd with
    | use sid f =>
      have hsid : sid = c := by
        have := hall _ (List.mem_cons_self _ _)
        simpa [isAddTo] using this
      subst hsid
      have hstep : (exec w (Cmd.use sid f)).get? sid
          = some { cd with middlewares := cd.middlewares ++ [f] } := by
        simp only [exec, updW, hc]
        exact get?_set_self w sid _ hlt
      obtain ⟨cd', h1, h2, h3, h4, h5, h6⟩ :=
        ih (exec w (Cmd.use sid f)) sid _ (fun x hm => hall x (List.mem_cons_of_mem _ hm)) hstep
      refine ⟨cd', h1, ?_, ?_, h4, h5, h6⟩
      · simp only [h2, usesIn, List.append_assoc, List.singleton_append]
      · intro cat
        simp only [h3 cat, hooksIn, List.append_assoc]
    | addHook sid cat0 f =>
      have hsid : sid = c := by
        have := hall _ (List.mem_cons_self _ _)
        simpa [isAddTo] using this
      subst hsid
      have hstep : (exec w (Cmd.addHook sid cat0 f)).get? sid
          = some { cd with hooks := cd.hooks.push cat0 f } := by
        simp only [exec, updW, hc]
        exact get?_set_self w sid _ hlt
      obtain ⟨cd', h1, h2, h3, h4, h5, h6⟩ :=
        ih (exec w (Cmd.addHook sid cat0 f)) sid _
          (fun x hm => hall x (List.mem_cons_of_mem _ hm)) hstep
      refine ⟨cd', h1, ?_, ?_, h4, h5, h6⟩
      · simp only [h2, usesIn]
      · intro cat
        rw [h3 cat]
        simp only [hooks_push_get, hooksIn]
        by_cases hcc : cat0 = cat
        · simp [hcc, List.append_assoc]
        · simp [hcc]
    | decorate sid n v =>
      have := hall _ (List.mem_cons_self _ _)
      simp [isAddTo] at this
    | setValidatorCompiler sid c0 =>
      have := hall _ (List.mem_cons_self _ _)
      simp [isAddTo] at this
    | register sid px =>
      have := hall _ (List.mem_cons_self _ _)
      simp [isAddTo] at this

/-- Without any setValidatorCompiler command, every scope ever reachable
from the root world keeps the built-in default compiler. -/
theorem execs_vc_dflt {α β : Type} :
    ∀ (cmds : List (Cmd α β)) (w : World α β),
      (∀ cmd ∈ cmds, isSetVC cmd = false) →
      (∀ i sd, w.get? i = some sd → sd.vc = VComp.dflt) →
      ∀ i sd, (execs w cmds).get? i = some sd → sd.vc = VComp.dflt := by
  intro cmds
  induction cmds with
  | nil => intro w _ hinv i sd h; exact hinv i sd h
  | cons cmd cs ih =>
    intro w hall hinv
    refine ih (exec w cmd) (fun x hm => hall x (List.mem_cons_of_mem _ hm)) ?_
    have hupd : ∀ (sid : Nat) (g : ScopeData α β → ScopeData α β),
        (∀ sd, (g sd).vc = sd.vc) →
        ∀ i sd, (updW w sid g).get? i = some sd → sd.vc = VComp.dflt := by
      intro sid g hg i sd h
      simp only [updW] at h
      cases hws : w.get? sid with
      | none => rw [hws] at h; exact hinv i sd h
      | some sd0 =>
        rw [hws] at h
        rcases get?_set_cases w sid i (g sd0) sd h with h | h
        · rw [h, hg sd0]; exact hinv sid sd0 hws
        · exact hinv i sd h
    cases cmd with
    | use sid f => exact hupd sid _ (fun sd => rfl)
    | addHook sid cat f => exact hupd sid _ (fun sd => rfl)
    | decorate sid n v => exact hupd sid _ (fun sd => rfl)
    | setValidatorCompiler sid c =>
      have := hall _ (List.mem_cons_self _ _)
      simp [isSetVC] at this
    | register sid px =>
      intro i sd h
      simp only [exec] at h
      cases hws : w.get? sid with
      | none => rw [hws] at h; exact hinv i sd h
      | some pd =>
        rw [hws] at h
        rcases get?_append_cases w (mkChild pd sid px) i sd h with h | h
        · exact hinv i sd h
        · rw [h]
          show pd.vc = VComp.dflt
          exact hinv sid pd hws

/-! ## Runtime lemmas -/

theorem hookPhase_trace (ev : Ev) (fs : List F) (chk : Bool) (c : Ctx) (t : List Ev) :
    ∃ n, traceOf (hookPhase ev fs chk c t) = t ++ List.replicate n ev := by
  simp only [hookPhase]
  cases (runT fs c).2.1 with
  | some e => exact ⟨(runT fs c).2.2, rfl⟩
  | none =>
    by_cases h : (chk && (runT fs c).1.responded) = true
    · rw [if_pos h]; exact ⟨(runT fs c).2.2, rfl⟩
    · rw [if_neg h]; exact ⟨(runT fs c).2.2, rfl⟩

theorem hookPhase_cont_trace {ev : Ev} {fs : List F} {chk : Bool} {c c' : Ctx}
    {t t' : List Ev} (h : hookPhase ev fs chk c t = .cont c' t') :
    ∃ n, t' = t ++ List.replicate n ev := by
  obtain ⟨n, hn⟩ := hookPhase_trace ev fs chk c t
  rw [h] at hn
  exact ⟨n, hn⟩

theorem hookPhase_cont_resp {ev : Ev} {fs : List F} {c c' : Ctx} {t t' : List Ev}
    (h : hookPhase ev fs true c t = .cont c' t') : c'.responded = false := by
  simp only [hookPhase] at h
  cases he : (runT fs c).2.1 with
  | some e => rw [he] at h; cases h
  | none =>
    rw [he] at h
    by_cases hr : (runT fs c).1.responded = true
    · rw [if_pos (by simp [hr])] at h; cases h
    · rw [if_neg (by simp [hr])] at h
      injection h with h1 _
      rw [← h1]
      exact Bool.eq_false_iff.mpr hr

theorem preRoute_cont_trace {sc : ScopeRT} {pbF : Bool} {pb : Except String JsVal}
    {c0 c : Ctx} {t : List Ev} (h : preRoute sc pbF pb c0 = .cont c t) :
    ∀ e ∈ t, e = Ev.onRequest ∨ e = Ev.bodyParse ∨ e = Ev.middleware := by
  simp only [preRoute] at h
  cases h1 : hookPhase Ev.onRequest sc.onRequest true c0 [] with
  | ret c1 t1 => rw [h1] at h; cases h
  | thr c1 t1 e1 => rw [h1] at h; cases h
  | cont c1 t1 =>
    rw [h1] at h
    simp only [bindP] at h
    obtain ⟨n1, hn1⟩ := hookPhase_cont_trace h1
    have ht1 : ∀ e ∈ t1, e = Ev.onRequest := by
      intro e he
      rw [hn1] at he
      simp only [List.nil_append] at he
      exact List.eq_of_mem_replicate he
    have hbody : ∀ c2 t2, bodyPhase pbF pb c1 t1 = .cont c2 t2 →
        ∀ e ∈ t2, e = Ev.onRequest ∨ e = Ev.bodyParse := by
      intro c2 t2 hb e he
      simp only [bodyPhase] at hb
      by_cases hc : pbF ∧ isNullB c1.body
      · rw [if_pos hc] at hb
        cases pb with
        | error e0 => cases hb
        | ok b =>
          injection hb with _ h2
          rw [← h2] at he
          rcases List.mem_append.mp he with he | he
          · exact Or.inl (ht1 e he)
          · simp only [List.mem_singleton] at he
            exact Or.inr he
      · rw [if_neg hc] at hb
        injection hb with _ h2
        rw [← h2] at he
        exact Or.inl (ht1 e he)
    cases h2 : bodyPhase pbF pb c1 t1 with
    | ret c2 t2 => rw [h2] at h; cases h
    | thr c2 t2 e2 => rw [h2] at h; cases h
    | cont c2 t2 =>
      rw [h2] at h
      simp only [bindP] at h
      obtain ⟨n3, hn3⟩ := hookPhase_cont_trace h
      intro e he
      rw [hn3] at he
      rcases List.mem_append.mp he with he | he
      · rcases hbody c2 t2 h2 e he with he' | he'
        · exact Or.inl he'
        · exact Or.inr (Or.inl he')
      · exact Or.inr (Or.inr (List.eq_of_mem_replicate he))

theorem valRun_sublist (v : Validators) (c : Ctx) :
    (valRun v c).2.Sublist [Ev.valBody, Ev.valQuery, Ev.valParams] := by
  cases hb : v.body <;> cases hq : v.querystring <;> cases hp : v.params <;>
    simp only [valRun, hb, hq, hp] <;> split_ifs <;> first
      | decide
      | (simp only [List.nil_append, List.append_nil, List.singleton_append]; decide)

/-! ## Claims -/

/-- C3: lookup processes path segments left to right; at each node it takes
the exact literal child when one matches the segment, and falls through to
the parametric child — capturing the segment text under the stored
parameter name — only when no literal child matches.  There is no
backtracking: in shadowRouter (routes /:x/c and /a/b) the path /a/c
returns no match, although the spec-level backtracking matcher reaches the
record stored under /:x/c, and the unshadowed path /q/c does reach it. -/
theorem c3_lookup_greedy_no_backtracking :
    (∀ (α : Type) (ch : List (String × Trie α)) (pc : Option (String × Trie α))
       (st : Option α) (s : String) (rest : List String) (acc : List (String × String))
       (c : Trie α), afind ch s = some c →
       lookupSegs (s :: rest) (.node ch pc st) acc = lookupSegs rest c acc)
    ∧ (∀ (α : Type) (ch : List (String × Trie α)) (nm : String) (c : Trie α)
       (st : Option α) (s : String) (rest : List String) (acc : List (String × String)),
       afind ch s = none →
       lookupSegs (s :: rest) (.node ch (some (nm, c)) st) acc
         = lookupSegs rest c (aset acc nm s))
    ∧ Router.lookup shadowRouter "/a/c" = none
    ∧ specMatch (normalizePath "/a/c") shadowRouter.root [] = some (1, [("x", "a")])
    ∧ Router.lookup shadowRouter "/q/c" = some (1, [("x", "q")]) := by
  refine ⟨?_, ?_, ?_, ?_, ?_⟩
  · intro α ch pc st s rest acc c h
    simp only [lookupSegs, h]
  · intro α ch nm c st s rest acc h
    simp only [lookupSegs, h]
  · decide
  · decide
  · decide

theorem c3_witness :
    afind [("a", Trie.empty (α := Nat))] "a" = some Trie.empty
    ∧ lookupSegs ["a"] (Trie.node [("a", Trie.empty (α := Nat))] none none) []
        = lookupSegs [] (Trie.empty (α := Nat)) []
    ∧ afind ([] : List (String × Trie Nat)) ":x" = none
    ∧ lookupSegs [":x"] (Trie.node [] (some ("x", Trie.empty (α := Nat))) none) []
        = lookupSegs [] (Trie.empty (α := Nat)) (aset [] "x" ":x") :=
  ⟨rfl,
   c3_lookup_greedy_no_backtracking.1 Nat [("a", Trie.empty)] none none "a" [] [] Trie.empty rfl,
   rfl,
   c3_lookup_greedy_no_backtracking.2.1 Nat [] "x" Trie.empty none ":x" [] [] rfl⟩

/-- C4: the first parameter name registered at a trie position wins — an
insert whose parametric segment reaches a node that already has a
parametric child keeps the existing name and descends, whatever the new
segment text after the colon; concretely, after /u/:a then /u/:b the
lookup of /u/42 captures 42 under a and carries the later record, and the
name b is stored nowhere in the trie. -/
theorem c4_first_param_name_wins :
    (∀ (α : Type) (ch : List (String × Trie α)) (nm : String) (c : Trie α)
       (st : Option α) (seg : String) (rest : List String) (d : α),
       startsWithColon seg = true →
       insertSegs (seg :: rest) (.node ch (some (nm, c)) st) d
         = .node ch (some (nm, insertSegs rest c d)) st)
    ∧ Router.lookup paramNameRouter "/u/42" = some (20, [("a", "42")])
    ∧ "b" ∉ paramNames paramNameRouter.root
    ∧ "a" ∈ paramNames paramNameRouter.root := by
  refine ⟨?_, ?_, ?_, ?_⟩
  · intro α ch nm c st seg rest d h
    simp only [insertSegs, h, if_true]
  · decide
  · decide
  · decide

theorem c4_witness :
    startsWithColon ":q" = true
    ∧ insertSegs [":q"] (Trie.node [] (some ("a", Trie.empty (α := Nat))) none) 5
        = Trie.node [] (some ("a", insertSegs [] (Trie.empty (α := Nat)) 5)) none :=
  ⟨by decide,
   c4_first_param_name_wins.1 Nat [] "a" Trie.empty none ":q" [] 5 (by decide)⟩

/-- C5 counterexample: /u/:y has a different normalized segment sequence
from /u/:x, yet a later insert of /u/:y terminates at the same trie
position (parametric segments share the single parametric child), so the
lookup of /u/:x after inserting record 1 at /u/:x and record 2 at /u/:y
returns record 2, not the stored record 1 the claim promises. -/
theorem c5_counterexample :
    Router.lookup overwriteRouter "/u/:x" = some (2, [("x", ":x")])
    ∧ normalizePath "/u/:y" ≠ normalizePath "/u/:x" := by
  exact ⟨by decide, by decide⟩

/-- C5 (amended): after insert(p, r) on a router built by insertions (any
router satisfying the insertion invariant GoodT), followed by later
insertions none of which terminates at the same trie position — same
normalized segment sequence with parametric segments identified regardless
of their names — lookup(p) returns the stored record r, and when p
consists only of literal segments the returned parameter mapping is
empty. -/
theorem c5_insert_lookup_roundtrip {α : Type} (R : Router α) (p : String) (r : α)
    (laters : List (String × α)) (hg : GoodT R.root)
    (hlat : ∀ q ∈ laters, samePos (normalizePath q.1) (normalizePath p) = false) :
    ∃ ps, Router.lookup (insertMany (R.insert p r) laters) p = some (r, ps) ∧
      ((∀ s ∈ normalizePath p, startsWithColon s = false) → ps = []) := by
  obtain ⟨acc', h1, h2⟩ := lookupSegs_insertSegs_self (normalizePath p) R.root r [] hg
  have hstab : ∀ (ls : List (String × α)) (t : Trie α), GoodT t →
      HasPath t (normalizePath p) →
      (∀ q ∈ ls, samePos (normalizePath q.1) (normalizePath p) = false) →
      lookupSegs (normalizePath p) (insertMany ⟨t⟩ ls).root []
        = lookupSegs (normalizePath p) t [] := by
    intro ls
    induction ls with
    | nil => intro t _ _ _; rfl
    | cons q qs ih =>
      intro t hgt hpt hall
      have step : insertMany (⟨t⟩ : Router α) (q :: qs)
          = insertMany ⟨insertSegs (normalizePath q.1) t q.2⟩ qs := rfl
      rw [step, ih _ (goodT_insert _ _ _ hgt)
        (hasPath_insert_other _ _ _ _ hpt)
        (fun x hm => hall x (List.mem_cons_of_mem _ hm))]
      exact lookupSegs_insertSegs_other (normalizePath p) (normalizePath q.1) t q.2 []
        hgt hpt (hall q (List.mem_cons_self _ _))
  refine ⟨acc', ?_, h2⟩
  show lookupSegs (normalizePath p)
      (insertMany ⟨insertSegs (normalizePath p) R.root r⟩ laters).root [] = some (r, acc')
  rw [hstab laters (insertSegs (normalizePath p) R.root r)
    (goodT_insert _ _ _ hg) (hasPath_insert _ _ _) hlat]
  exact h1

theorem c5_witness :
    GoodT (Router.empty (α := Nat)).root
    ∧ (∀ q ∈ [("/a/:z", 2)], samePos (normalizePath q.1) (normalizePath "/a/b") = false)
    ∧ ∃ ps, Router.lookup (insertMany (Router.insert Router.empty "/a/b" 1) [("/a/:z", 2)])
          "/a/b" = some (1, ps) ∧
        ((∀ s ∈ normalizePath "/a/b", startsWithColon s = false) → ps = []) :=
  ⟨goodT_empty, by decide,
   c5_insert_lookup_roundtrip Router.empty "/a/b" 1 [("/a/:z", 2)] goodT_empty (by decide)⟩

/-- C1 (code evaluated at the failing input): a decorator set on the root
scope — whether after the child scope was created (decoAfterWorld) or
before (decoBeforeWorld) — is resolvable through the live decorator chain
of the child (chainLookup, the prototype walk of scope.decorators), yet
the fields a Context created by the child receives
(Object.assign(this, scope.decorators) copies only the child table's own
entries, ctxFields) do not contain it; a decorator set on the child itself
does appear. -/
theorem c1_parent_decorator_missing_from_context :
    afind (ctxFields decoAfterWorld 1) "db" = none
    ∧ chainLookup decoAfterWorld 1 "db" = some 7
    ∧ afind (ctxFields decoBeforeWorld 1) "db" = none
    ∧ chainLookup decoBeforeWorld 1 "db" = some 7
    ∧ afind (ctxFields (exec decoAfterWorld (Cmd.decorate 1 "own" 5)) 1) "own" = some 5 := by
  exact ⟨rfl, rfl, rfl, rfl, rfl⟩

/-- C2: at child creation the middleware list and all seven hook lists of
the parent are copied by value; afterwards, any sequence of commands that
never mutates the child (in particular any P.use / P.addHook) leaves the
child entry — middleware list and all hook lists — exactly as snapshotted;
any sequence that never mutates the parent leaves the parent entry
unchanged; and a sequence of use/addHook commands on the child makes its
lists exactly the snapshot followed by its own additions in order. -/
theorem c2_snapshot_isolation {α β : Type} (w : World α β) (p : Nat) (px : String)
    (pd : ScopeData α β) (hp : w.get? p = some pd) :
    (exec w (Cmd.register p px)).get? w.length = some (mkChild pd p px)
    ∧ (mkChild pd p px).middlewares = pd.middlewares
    ∧ (∀ cat, (mkChild pd p px).hooks.get cat = pd.hooks.get cat)
    ∧ (∀ cmds : List (Cmd α β), (∀ cmd ∈ cmds, touches cmd w.length = false) →
        (execs (exec w (Cmd.register p px)) cmds).get? w.length = some (mkChild pd p px))
    ∧ (∀ cmds : List (Cmd α β), (∀ cmd ∈ cmds, touches cmd p = false) →
        (execs (exec w (Cmd.register p px)) cmds).get? p = some pd)
    ∧ (∀ cmds : List (Cmd α β), (∀ cmd ∈ cmds, isAddTo cmd w.length = true) →
        ∃ cd', (execs (exec w (Cmd.register p px)) cmds).get? w.length = some cd' ∧
          cd'.middlewares = pd.middlewares ++ usesIn cmds ∧
          (∀ cat, cd'.hooks.get cat = pd.hooks.get cat ++ hooksIn cat cmds)) := by
  have hplt : p < w.length := by
    by_contra hge
    rw [List.get?_eq_none.mpr (Nat.le_of_not_lt hge)] at hp
    cases hp
  have hwrld : exec w (Cmd.register p px) = w ++ [mkChild pd p px] := by
    simp only [exec, hp]
  have hchild : (exec w (Cmd.register p px)).get? w.length = some (mkChild pd p px) := by
    rw [hwrld]
    exact get?_append_self w (mkChild pd p px)
  have hlen : (exec w (Cmd.register p px)).length = w.length + 1 := by
    rw [hwrld]
    simp
  refine ⟨hchild, rfl, fun cat => rfl, ?_, ?_, ?_⟩
  · intro cmds hcmds
    rw [execs_get_untouched cmds _ w.length (by rw [hlen]; exact Nat.lt_succ_self _) hcmds]
    exact hchild
  · intro cmds hcmds
    rw [execs_get_untouched cmds _ p
      (by rw [hlen]; exact Nat.lt_succ_of_lt hplt) hcmds]
    have hpp : (exec w (Cmd.register p px)).get? p = w.get? p := by
      rw [hwrld]
      exact get?_append_left w [mkChild pd p px] p hplt
    rw [hpp]
    exact hp
  · intro cmds hcmds
    obtain ⟨cd', ha, hb, hc, _, _, _⟩ :=
      execs_addTo cmds (exec w (Cmd.register p px)) w.length (mkChild pd p px) hcmds hchild
    exact ⟨cd', ha, hb, hc⟩

theorem c2_witness :
    (rootWorld (α := Nat) (β := Nat)).get? 0 = some rootScope
    ∧ (execs (exec (rootWorld (α := Nat) (β := Nat)) (Cmd.register 0 "")) [Cmd.use 0 9]).get? 1
        = some (mkChild rootScope 0 "")
    ∧ (execs (exec (rootWorld (α := Nat) (β := Nat)) (Cmd.register 0 ""))
        [Cmd.use 1 9, Cmd.addHook 1 HookCat.onSend 3]).get? 0 = some rootScope
    ∧ ∃ cd', (execs (exec (rootWorld (α := Nat) (β := Nat)) (Cmd.register 0 ""))
          [Cmd.use 1 9, Cmd.addHook 1 HookCat.onSend 3]).get? 1 = some cd' ∧
        cd'.middlewares = (rootScope (α := Nat) (β := Nat)).middlewares
          ++ usesIn [Cmd.use (α := Nat) (β := Nat) 1 9, Cmd.addHook 1 HookCat.onSend 3] ∧
        (∀ cat, cd'.hooks.get cat = (rootScope (α := Nat) (β := Nat)).hooks.get cat
          ++ hooksIn cat [Cmd.use (α := Nat) (β := Nat) 1 9, Cmd.addHook 1 HookCat.onSend 3]) :=
  ⟨rfl,
   (c2_snapshot_isolation rootWorld 0 "" rootScope rfl).2.2.2.1 [Cmd.use 0 9] (by decide),
   (c2_snapshot_isolation rootWorld 0 "" rootScope rfl).2.2.2.2.1
     [Cmd.use 1 9, Cmd.addHook 1 HookCat.onSend 3] (by decide),
   (c2_snapshot_isolation rootWorld 0 "" rootScope rfl).2.2.2.2.2
     [Cmd.use 1 9, Cmd.addHook 1 HookCat.onSend 3] (by decide)⟩

/-- C10 counterexample: with schema required = ["a"] and the string data
"x", the key a is undefined on the data and the required list is present
and truthy, yet the compiled default validator accepts (returns null),
because the source guards the loop with typeof data === "object". -/
theorem c10_counterexample :
    defaultValidator (JsVal.vObj [("required", JsVal.vArr [JsVal.vStr "a"])])
      (JsVal.vStr "x") = JsVal.vNull
    ∧ isUndefB (getField (JsVal.vStr "x") "a") = true
    ∧ truthy (getField (JsVal.vObj [("required", JsVal.vArr [JsVal.vStr "a"])]) "required")
        = true := by
  exact ⟨rfl, rfl, rfl⟩

/-- C10 (amended): a scope tree on which setValidatorCompiler is never
called keeps the built-in default compiler everywhere; the compiled
default validator accepts whenever the schema field has no truthy required
list; for data of JS object type it rejects exactly when some listed key
is undefined on (or missing from) the data, and the rejection message
names the first such key; data that is not of JS object type is accepted
even when listed keys are undefined on it. -/
theorem c10_default_validator :
    (∀ (cmds : List (Cmd Nat Nat)), (∀ cmd ∈ cmds, isSetVC cmd = false) →
      ∀ i sd, (execs rootWorld cmds).get? i = some sd → sd.vc = VComp.dflt)
    ∧ (∀ schema data, truthy (getField schema "required") = false →
        defaultValidator schema data = JsVal.vNull)
    ∧ (∀ schema data keys, truthy schema = true →
        getField schema "required" = JsVal.vArr keys →
        jsTypeofIsObject data = false → defaultValidator schema data = JsVal.vNull)
    ∧ (∀ schema data keys, truthy schema = true →
        getField schema "required" = JsVal.vArr keys →
        jsTypeofIsObject data = true →
        ((defaultValidator schema data = JsVal.vNull) ↔
          ∀ k ∈ keys, truthy data = true ∧ isUndefB (getField data (jsToString k)) = false))
    ∧ (∀ schema data keys k, truthy schema = true →
        getField schema "required" = JsVal.vArr keys →
        jsTypeofIsObject data = true →
        keys.find? (fun k => !truthy data || isUndefB (getField data (jsToString k))) = some k →
        defaultValidator schema data
          = JsVal.vObj [("message",
              JsVal.vStr ("Missing required property: " ++ jsToString k))]) := by
  refine ⟨?_, ?_, ?_, ?_, ?_⟩
  · intro cmds hall i sd h
    refine execs_vc_dflt cmds rootWorld hall ?_ i sd h
    intro j sd' hj
    cases j with
    | zero =>
      injection hj with hj
      rw [← hj]
      rfl
    | succ j' => cases j' <;> cases hj
  · intro schema data hf
    simp only [defaultValidator]
    by_cases hs : truthy schema = false
    · rw [if_pos hs]
    · rw [if_neg hs]
      cases hreq : getField schema "required" with
      | vArr keys => rw [hreq] at hf; exact absurd hf (by simp [truthy])
      | vNull => rfl
      | vUndefined => rfl
      | vStr s => rfl
      | vNum n => rfl
      | vBool b => rfl
      | vObj fs => rfl
  · intro schema data keys hs hreq hobj
    simp only [defaultValidator, hs, Bool.true_eq_false, if_neg, hreq, hobj]
    simp
  · intro schema data keys hs hreq hobj
    have hred : defaultValidator schema data =
        (match keys.find? (fun k => !truthy data || isUndefB (getField data (jsToString k))) with
         | some k => JsVal.vObj [("message",
             JsVal.vStr ("Missing required property: " ++ jsToString k))]
         | none => JsVal.vNull) := by
      simp only [defaultValidator, hs, hreq, hobj]
      simp
    rw [hred]
    cases hfind : keys.find? (fun k => !truthy data || isUndefB (getField data (jsToString k))) with
    | some k =>
      simp only
      constructor
      · intro h; cases h
      · intro hall
        have hk := List.find?_some hfind
        have hmem := List.mem_of_find?_eq_some hfind
        obtain ⟨h1, h2⟩ := hall k hmem
        rw [h1, h2] at hk
        cases hk
    | none =>
      simp only
      constructor
      · intro _
        intro k hk
        have := List.find?_eq_none.mp hfind k hk
        constructor
        · by_contra h
          have hd : truthy data = false := by
            cases hh : truthy data
            · rfl
            · exact absurd hh h
          rw [hd] at this
          simp at this
        · by_contra h
          have hu : isUndefB (getField data (jsToString k)) = true := by
            cases hh : isUndefB (getField data (jsToString k))
            · exact absurd hh (by simpa using h)
            · rfl
          rw [hu] at this
          simp at this
      · intro _; trivial
  · intro schema data keys k hs hreq hobj hfind
    simp only [defaultValidator, hs, hreq, hobj]
    simp only [hfind]
    simp

theorem c10_witness :
    (∀ cmd ∈ [Cmd.register 0 "", Cmd.use (α := Nat) (β := Nat) 1 9], isSetVC cmd = false)
    ∧ (∀ i sd, (execs (rootWorld (α := Nat) (β := Nat))
        [Cmd.register 0 "", Cmd.use 1 9]).get? i = some sd → sd.vc = VComp.dflt)
    ∧ defaultValidator (JsVal.vObj [("type", JsVal.vStr "object")]) (JsVal.vStr "free")
        = JsVal.vNull
    ∧ ((defaultValidator (JsVal.vObj [("required", JsVal.vArr [JsVal.vStr "a"])])
          (JsVal.vObj [("b", JsVal.vNum 1)]) = JsVal.vNull) ↔
        ∀ k ∈ [JsVal.vStr "a"], truthy (JsVal.vObj [("b", JsVal.vNum 1)]) = true ∧
          isUndefB (getField (JsVal.vObj [("b", JsVal.vNum 1)]) (jsToString k)) = false)
    ∧ defaultValidator (JsVal.vObj [("required", JsVal.vArr [JsVal.vStr "a"])])
        (JsVal.vObj [("b", JsVal.vNum 1)])
        = JsVal.vObj [("message", JsVal.vStr ("Missing required property: " ++ jsToString (JsVal.vStr "a")))] :=
  ⟨by decide,
   c10_default_validator.1 [Cmd.register 0 "", Cmd.use 1 9] (by decide),
   c10_default_validator.2.1 (JsVal.vObj [("type", JsVal.vStr "object")]) (JsVal.vStr "free") rfl,
   c10_default_validator.2.2.2.1 (JsVal.vObj [("required", JsVal.vArr [JsVal.vStr "a"])])
     (JsVal.vObj [("b", JsVal.vNum 1)]) [JsVal.vStr "a"] rfl rfl rfl,
   c10_default_validator.2.2.2.2 (JsVal.vObj [("required", JsVal.vArr [JsVal.vStr "a"])])
     (JsVal.vObj [("b", JsVal.vNum 1)]) [JsVal.vStr "a"] (JsVal.vStr "a") rfl rfl rfl rfl⟩

/-- C7: send is guarded to be idempotent — called on a Context already
marked responded, or whose underlying transport has already ended, it
returns the Context completely unchanged (no header, status, payload or
body change) and invokes zero onSend hooks. -/
theorem c7_send_idempotent_guard (hooks : List F) (ctx : Ctx) (d : JsVal)
    (h : ctx.responded = true ∨ ctx.res.writableEnded = true) :
    sendT hooks ctx d = (ctx, 0) := by
  simp only [sendT]
  rcases h with h | h <;> simp [h]

theorem c7_witness :
    (({ responded := true } : Ctx).responded = true ∨
      ({ responded := true } : Ctx).res.writableEnded = true)
    ∧ sendT [] { responded := true } JsVal.vNull = ({ responded := true }, 0) :=
  ⟨Or.inl rfl, c7_send_idempotent_guard [] { responded := true } JsVal.vNull (Or.inl rfl)⟩

/-- C8 counterexample: the payload 0 is not an object and its JS string
form is "0", yet send writes the empty body, because the source
serializes non-objects as String(body || ""), which maps every falsy
payload — not only null and undefined — to the empty string. -/
theorem c8_counterexample :
    (sendT [] ({} : Ctx) (JsVal.vNum 0)).1.res.body = some ""
    ∧ jsToString (JsVal.vNum 0) = "0"
    ∧ (sendT [] ({} : Ctx) (JsVal.vNum 0)).1.res.body ≠ some (jsToString (JsVal.vNum 0)) := by
  exact ⟨by decide, by decide, by decide⟩

/-- C8 (amended): when send actually emits (Context not responded, transport
not ended, and no onSend hook throws), the payload left by the onSend hooks
is serialized as a JSON-encoded body if it is a non-null object (and
Content-Type defaults to application/json when not already set and headers
are not flushed); every other payload is written as its JS string form if
truthy and as the empty string if falsy (null, undefined, 0, false, the
empty string); a Content-Length header is set if not already present and
headers are not yet flushed; the Context is marked responded. -/
theorem c8_send_serialization (hooks : List F) (ctx : Ctx) (d : JsVal)
    (c1 : Ctx) (n1 : Nat)
    (hr : ctx.responded = false) (he : ctx.res.writableEnded = false)
    (hrun : runT hooks { ctx with payload := d } = (c1, none, n1)) :
    ((sendT hooks ctx d).1.res.body
        = some (if isObjectNonNull c1.payload then jsonStringify c1.payload
            else if truthy c1.payload then jsToString c1.payload else ""))
    ∧ (sendT hooks ctx d).1.responded = true
    ∧ (sendT hooks ctx d).2 = n1
    ∧ (c1.res.headersSent = false →
        (isObjectNonNull c1.payload = true → afind c1.res.headers "Content-Type" = none →
          afind (sendT hooks ctx d).1.res.headers "Content-Type" = some "application/json")
        ∧ (afind c1.res.headers "Content-Length" = none →
          afind (sendT hooks ctx d).1.res.headers "Content-Length"
            = some (toString (if isObjectNonNull c1.payload then jsonStringify c1.payload
                else if truthy c1.payload then jsToString c1.payload else "").utf8ByteSize))) := by
  have hguard : (ctx.responded || ctx.res.writableEnded) = false := by
    rw [hr, he]; rfl
  simp only [sendT, hguard, Bool.false_eq_true, if_false, hrun]
  refine ⟨?_, ?_, ?_, ?_⟩
  · by_cases hhs : c1.res.headersSent = true <;>
      by_cases hobj : isObjectNonNull c1.payload = true <;>
        simp [hhs, hobj]
  · trivial
  · trivial
  · intro hhs
    constructor
    · intro hobj hct
      simp only [hhs, Bool.false_eq_true, if_false, hobj, if_true]
      by_cases hcl : (afind (aset c1.res.headers "Content-Type" "application/json")
          "Content-Length").isNone
      · simp only [hct, Option.isNone_none, Bool.and_true, if_true, hcl]
        rw [afind_aset_ne _ "Content-Length" "Content-Type" _ (by decide)]
        exact afind_aset_self _ _ _
      · simp only [hct, Option.isNone_none, Bool.and_true, if_true, if_neg hcl]
        exact afind_aset_self _ _ _
    · intro hcl
      by_cases hobj : isObjectNonNull c1.payload = true
      · by_cases hct : (afind c1.res.headers "Content-Type").isNone
        · simp only [hhs, Bool.false_eq_true, if_false, hobj, hct, Bool.and_true, if_true]
          rw [if_pos]
          · exact afind_aset_self _ _ _
          · rw [afind_aset_ne _ "Content-Type" "Content-Length" _ (by decide), hcl]
            rfl
        · simp only [hhs, Bool.false_eq_true, if_false, hobj, hct, Bool.and_false, if_false]
          rw [if_pos (by rw [hcl]; rfl)]
          exact afind_aset_self _ _ _
      · simp only [hhs, Bool.false_eq_true, if_false, hobj, Bool.false_and, if_false]
        rw [if_pos (by rw [hcl]; rfl)]
        exact afind_aset_self _ _ _

theorem c8_witness :
    (({} : Ctx).responded = false)
    ∧ (({} : Ctx).res.writableEnded = false)
    ∧ runT [] ({ ({} : Ctx) with payload := JsVal.vStr "hi" })
        = ({ ({} : Ctx) with payload := JsVal.vStr "hi" }, none, 0)
    ∧ (sendT [] ({} : Ctx) (JsVal.vStr "hi")).1.res.body
        = some (if isObjectNonNull ({ ({} : Ctx) with payload := JsVal.vStr "hi" } : Ctx).payload
            then jsonStringify ({ ({} : Ctx) with payload := JsVal.vStr "hi" } : Ctx).payload
            else if truthy ({ ({} : Ctx) with payload := JsVal.vStr "hi" } : Ctx).payload
              then jsToString ({ ({} : Ctx) with payload := JsVal.vStr "hi" } : Ctx).payload
              else "") :=
  ⟨rfl, rfl, rfl,
   (c8_send_serialization [] {} (JsVal.vStr "hi") _ 0 rfl rfl rfl).1⟩

/-- C9: the watchdog timer is canceled exactly once whatever path the
request takes through the lifecycle (normal response, early return, or
error response); the callback it arms is a no-op when the request is
already responded at firing time, and otherwise runs the owning scope's
onTimeout hooks and, if the Context is still unresponded after them,
synthesizes the 504 gateway-timeout response. -/
theorem c9_watchdog :
    (∀ (sc : ScopeRT) (m? : Option RouteMatch) (pbF : Bool) (pb : Except String JsVal)
       (ctx0 : Ctx), (handleRequest sc m? pbF pb ctx0).2.2 = 1)
    ∧ (∀ (sc : ScopeRT) (ctx : Ctx), ctx.responded = true → timerCb sc ctx = (ctx, []))
    ∧ (∀ (sc : ScopeRT) (ctx : Ctx) (c1 : Ctx) (e1 : Option String) (n1 : Nat),
        ctx.responded = false →
        runT sc.onTimeout { ctx with error := some "Gateway Timeout" } = (c1, e1, n1) →
        (c1.responded = true → timerCb sc ctx = (c1, List.replicate n1 Ev.onTimeout))
        ∧ (c1.responded = false →
            timerCb sc ctx =
              ((sendT sc.onSend (c1.status 504)
                  (.vObj [("error", .vStr "Gateway Timeout")])).1,
               List.replicate n1 Ev.onTimeout ++ List.replicate
                 (sendT sc.onSend (c1.status 504)
                   (.vObj [("error", .vStr "Gateway Timeout")])).2 Ev.onSend))) := by
  refine ⟨fun _ _ _ _ _ => rfl, ?_, ?_⟩
  · intro sc ctx h
    simp only [timerCb, h, if_true]
  · intro sc ctx c1 e1 n1 hr hrun
    rw [hr] at hrun
    constructor
    · intro hc1
      simp only [timerCb, hr, Bool.false_eq_true, if_false, hrun, hc1, if_true]
    · intro hc1
      simp only [timerCb, hr, Bool.false_eq_true, if_false, hrun, hc1, if_false]

theorem c9_witness :
    (handleRequest {} none false (Except.ok JsVal.vNull) {}).2.2 = 1
    ∧ (({} : Ctx).responded = false)
    ∧ runT ({} : ScopeRT).onTimeout { ({} : Ctx) with error := some "Gateway Timeout" }
        = ({ ({} : Ctx) with error := some "Gateway Timeout" }, none, 0)
    ∧ timerCb {} {} =
        ((sendT ({} : ScopeRT).onSend
            (({ ({} : Ctx) with error := some "Gateway Timeout" } : Ctx).status 504)
            (.vObj [("error", .vStr "Gateway Timeout")])).1,
         List.replicate 0 Ev.onTimeout ++ List.replicate
           (sendT ({} : ScopeRT).onSend
             (({ ({} : Ctx) with error := some "Gateway Timeout" } : Ctx).status 504)
             (.vObj [("error", .vStr "Gateway Timeout")])).2 Ev.onSend) :=
  ⟨c9_watchdog.1 {} none false (Except.ok JsVal.vNull) {},
   rfl, rfl,
   (c9_watchdog.2.2 {} {} { ({} : Ctx) with error := some "Gateway Timeout" } none 0
     rfl rfl).2 rfl⟩

/-- C6: for a dispatched request with a matched route, once the lifecycle
reaches the route phase and the preValidation hooks pass, the compiled
validators run in the fixed order body, querystring, params (the event
list of the cascade is an order-preserving sublist of that sequence),
stopping at the first truthy failure; a failure makes the dispatcher
respond through send with status 400 and a payload carrying the
validation details and end the lifecycle there — the whole dispatch
result is exactly that send, and its trace contains no preHandler, no
handler and no onError event. -/
theorem c6_validation_failure (sc : ScopeRT) (m : RouteMatch) (pbF : Bool)
    (pb : Except String JsVal) (ctx0 c c1 : Ctx) (t0 t1 : List Ev) (err : JsVal)
    (evs : List Ev)
    (h1 : preRoute sc pbF pb ctx0 = .cont c t0)
    (h2 : hookPhase Ev.preValidation sc.preValidation true c t0 = .cont c1 t1)
    (h3 : valRun m.validators c1 = (err, evs))
    (h4 : truthy err = true) :
    dispatch sc (some m) pbF pb ctx0
      = ((sendT sc.onSend (c1.status 400)
            (.vObj [("error", .vStr "Validation Failed"), ("details", err)])).1,
         t1 ++ evs ++ List.replicate
           (sendT sc.onSend (c1.status 400)
             (.vObj [("error", .vStr "Validation Failed"), ("details", err)])).2 Ev.onSend)
    ∧ evs.Sublist [Ev.valBody, Ev.valQuery, Ev.valParams]
    ∧ (∀ e ∈ (dispatch sc (some m) pbF pb ctx0).2,
        e ≠ Ev.preHandler ∧ e ≠ Ev.handler ∧ e ≠ Ev.onError) := by
  have hval : validationPhase sc m.validators c1 t1
      = .ret (sendT sc.onSend (c1.status 400)
          (.vObj [("error", .vStr "Validation Failed"), ("details", err)])).1
        (t1 ++ evs ++ List.replicate
          (sendT sc.onSend (c1.status 400)
            (.vObj [("error", .vStr "Validation Failed"), ("details", err)])).2 Ev.onSend) := by
    simp only [validationPhase, h3, h4, if_true]
  have hdisp : dispatch sc (some m) pbF pb ctx0
      = ((sendT sc.onSend (c1.status 400)
            (.vObj [("error", .vStr "Validation Failed"), ("details", err)])).1,
         t1 ++ evs ++ List.replicate
           (sendT sc.onSend (c1.status 400)
             (.vObj [("error", .vStr "Validation Failed"), ("details", err)])).2 Ev.onSend) := by
    simp only [dispatch, dispatchCore, h1, bindP, routePhase, h2, hval]
  have hsub : evs.Sublist [Ev.valBody, Ev.valQuery, Ev.valParams] := by
    have := valRun_sublist m.validators c1
    rw [h3] at this
    exact this
  refine ⟨hdisp, hsub, ?_⟩
  rw [hdisp]
  intro e he
  obtain ⟨n2, hn2⟩ := hookPhase_cont_trace h2
  have ht0 := preRoute_cont_trace h1
  rcases List.mem_append.mp he with he | he
  · rcases List.mem_append.mp he with he | he
    · rw [hn2] at he
      rcases List.mem_append.mp he with he | he
      · rcases ht0 e he with h | h | h <;> subst h <;> exact ⟨by decide, by decide, by decide⟩
      · have := List.eq_of_mem_replicate he
        subst this
        exact ⟨by decide, by decide, by decide⟩
    · have hmem : e ∈ [Ev.valBody, Ev.valQuery, Ev.valParams] := hsub.subset he
      simp only [List.mem_cons, List.not_mem_nil, or_false] at hmem
      rcases hmem with h | h | h <;> subst h <;> exact ⟨by decide, by decide, by decide⟩
  · have := List.eq_of_mem_replicate he
    subst this
    exact ⟨by decide, by decide, by decide⟩

theorem c6_witness :
    preRoute {} false (Except.ok JsVal.vNull) {} = .cont {} []
    ∧ hookPhase Ev.preValidation ({} : ScopeRT).preValidation true {} [] = .cont {} []
    ∧ valRun failingMatch.validators {}
        = (JsVal.vObj [("message", JsVal.vStr "bad")], [Ev.valBody])
    ∧ truthy (JsVal.vObj [("message", JsVal.vStr "bad")]) = true
    ∧ (∀ e ∈ (dispatch {} (some failingMatch) false (Except.ok JsVal.vNull) {}).2,
        e ≠ Ev.preHandler ∧ e ≠ Ev.handler ∧ e ≠ Ev.onError) :=
  ⟨rfl, rfl, rfl, rfl,
   (c6_validation_failure {} failingMatch false (Except.ok JsVal.vNull) {} {} {} [] []
     (JsVal.vObj [("message", JsVal.vStr "bad")]) [Ev.valBody] rfl rfl rfl rfl).2.2⟩
